import Mathlib

/-!
Verification of the libloot core against its specification.

This file gives a shallow embedding, in Lean 4, of the parts of the libloot
source that the verified claims are about:

* `ConditionEvaluator` (src/api/metadata/condition_evaluator.cpp): path
  validation, version comparison, condition evaluation and metadata filtering;
* `ApiDatabase` (src/api/api_database.cpp): `GetPluginMetadata` and `LoadLists`;
* `PluginSorter` (src/api/sorting/plugin_sorter.cpp): `ComparePlugins`,
  `AddHardcodedPluginEdges`, `AddEdge` and the bidirectional search of
  `EdgeCreatesCycle` together with its paths cache;
* the group resolver `GetTransitiveAfterGroups`, whose implementation file is
  not part of the excerpt and is therefore modelled from the specification.

External collaborators (filesystem, plugin parser, CRC, serialiser, the
condition grammar) are passed in as explicit function parameters, following the
specification's interface section.  Machine integers that the claims touch
(CRC32 values, load-order indices) never overflow in the modelled code paths
and are represented as `Nat`.
-/

namespace Loot

/-- Lowercases every character of a string; stands for the case-folding used by
`boost::locale::to_lower` and `loot::equivalent` on ASCII plugin filenames. -/
def strLower (s : String) : String := ⟨s.data.map Char.toLower⟩

/-- Lowercases a character list; the case-folding applied by the modelled
`CompareFilenames` helper. -/
def lowercase (s : List Char) : List Char := s.map Char.toLower

deriving instance DecidableEq for Except

/-- Error thrown by condition parsing and by path and regex validation
(`ConditionSyntaxError` in loot/exception/condition_syntax_error.h). -/
structure ConditionSyntaxError where
  message : String
deriving DecidableEq

/-- Embeds the loop body of `ConditionEvaluator::validatePath`
(condition_evaluator.cpp lines 266-283).  A filesystem path is represented by
its list of components, as iterated by `std::filesystem::path`; the
accumulator `temp` plays the role of the local `temp` path, and
`temp.getLast?` plays the role of `temp.filename()`. -/
def validatePathAux : List String → List String → Except ConditionSyntaxError Unit
  | _, [] => .ok ()
  | temp, c :: rest =>
    if c = "." then validatePathAux temp rest
    else if c = ".." ∧ temp.getLast? = some ".." then
      .error ⟨"Invalid file path"⟩
    else validatePathAux (temp ++ [c]) rest

/-- Embeds `ConditionEvaluator::validatePath` (condition_evaluator.cpp lines
266-283), starting from an empty `temp` path. -/
def validatePath (components : List String) : Except ConditionSyntaxError Unit :=
  validatePathAux [] components

/-- Spec-side predicate: the component list contains a ".." component
immediately following another ".." component. -/
def ConsecutiveParentRefs : List String → Prop
  | a :: b :: rest => (a = ".." ∧ b = "..") ∨ ConsecutiveParentRefs (b :: rest)
  | _ => False

/-- Helper predicate for reasoning about `validatePathAux`: like
`ConsecutiveParentRefs`, but the first component may also pair with a
previous ".." recorded in `prev`. -/
def ConsecutiveFrom (prev : Prop) : List String → Prop
  | [] => False
  | c :: rest => (prev ∧ c = "..") ∨ ConsecutiveFrom (c = "..") rest

/-- Embeds `ConditionEvaluator::compareVersions` (condition_evaluator.cpp lines
244-264).  `fileExistsFn` stands for `this->fileExists` (lines 150-172; its
plugin-cache and filesystem lookups are external state, and it can throw from
`validatePath`).  `versionCompare filePath testVersion` stands for the
`Ordering` of the extracted `trueVersion` relative to `givenVersion`, folding
the external `Version` class; it is only consulted when the file exists. -/
def compareVersions (fileExistsFn : String → Except ConditionSyntaxError Bool)
    (versionCompare : String → String → Ordering)
    (filePath testVersion comparator : String) : Except ConditionSyntaxError Bool := do
  let ex ← fileExistsFn filePath
  if !ex then
    return (comparator == "!=" || comparator == "<" || comparator == "<=")
  else
    let ord := versionCompare filePath testVersion
    return ((comparator == "==" && (ord == Ordering.eq)) ||
            (comparator == "!=" && !(ord == Ordering.eq)) ||
            (comparator == "<" && (ord == Ordering.lt)) ||
            (comparator == ">" && (ord == Ordering.gt)) ||
            (comparator == "<=" && !(ord == Ordering.gt)) ||
            (comparator == ">=" && !(ord == Ordering.lt)))

/-- Embeds `ConditionEvaluator::parseCondition` (condition_evaluator.cpp lines
387-407).  The empty condition is accepted with value `true`; otherwise the
boost.spirit grammar (condition_grammar.h, an external collaborator) runs:
`parse` stands for `phrase_parse` over that grammar together with the
full-input check, returning the evaluation or the thrown syntax error. -/
def parseCondition (parse : String → Except ConditionSyntaxError Bool)
    (condition : String) : Except ConditionSyntaxError Bool :=
  if condition = "" then .ok true else parse condition

/-- Embeds `ConditionEvaluator::evaluate(condition)` (condition_evaluator.cpp
lines 49-73).  `parseOnly` is the value of `shouldParseOnly()` (lines 434-436:
the plugin cache or the load-order handler is absent); `cachedCondition` is
`GameCache::GetCachedCondition` viewed as a lookup.  The `CacheCondition`
store on line 70 only mutates the cache and does not affect the returned
value, so the cache write is not modelled. -/
def evaluate (parseOnly : Bool) (parse : String → Except ConditionSyntaxError Bool)
    (cachedCondition : String → Option Bool) (condition : String) :
    Except ConditionSyntaxError Bool :=
  if parseOnly then
    match parseCondition parse condition with
    | .error e => .error e
    | .ok _ => .ok false
  else if condition = "" then .ok true
  else
    match cachedCondition condition with
    | some v => .ok v
    | none => parseCondition parse condition

/-- File reference metadata (`loot::File`): name, display string, condition. -/
structure MetadataFile where
  name : String
  display : String
  condition : String
deriving DecidableEq

/-- Message metadata (`loot::Message`): numeric type tag, content, condition. -/
structure MetadataMessage where
  messageType : Nat
  content : String
  condition : String
deriving DecidableEq

/-- Bash tag metadata (`loot::Tag`): name, addition flag, condition. -/
structure MetadataTag where
  name : String
  isAddition : Bool
  condition : String
deriving DecidableEq

/-- Dirty or clean info record (`loot::PluginCleaningData`): CRC and counts. -/
structure PluginCleaningData where
  crc : Nat
  itmCount : Nat
  deletedReferenceCount : Nat
  deletedNavmeshCount : Nat
  cleaningUtility : String
  detail : String
deriving DecidableEq

/-- Plugin metadata entry (`loot::PluginMetadata`).  The C++ class stores the
condition-gated collections in `std::set` / `std::vector`; they are modelled
as lists in iteration order. -/
structure PluginMetadata where
  name : String
  enabled : Bool
  group : Option String
  loadAfterFiles : List MetadataFile
  requirements : List MetadataFile
  incompatibilities : List MetadataFile
  messages : List MetadataMessage
  tags : List MetadataTag
  dirtyInfo : List PluginCleaningData
  cleanInfo : List PluginCleaningData
  locations : List String
deriving DecidableEq

/-- Embeds `ConditionEvaluator::evaluate(PluginCleaningData, pluginName)`
(condition_evaluator.cpp lines 75-81).  `getCrcFn` stands for `getCrc`
(lines 438-473), whose CRC cache and filesystem reads are external state. -/
def evaluateCleaningData (parseOnly : Bool) (getCrcFn : String → Nat)
    (cleaningData : PluginCleaningData) (pluginName : String) : Bool :=
  if parseOnly ∨ pluginName = "" then false
  else cleaningData.crc == getCrcFn pluginName

/-- Embeds `ConditionEvaluator::evaluateAll` (condition_evaluator.cpp lines
83-148).  `evalCondition` stands for `this->evaluate(condition)` restricted to
the conditions stored in the metadata (modelled as total; a syntax error
thrown by an invalid stored condition would propagate instead of filtering).
`isRegexName` stands for `PluginMetadata::IsRegexPlugin`, whose definition is
outside the excerpt; it depends only on the entry name, so the fresh copy
constructed from `pluginMetadata.GetName()` yields the same value.  Fields
never set on the fresh copy keep their defaults: in particular the dirty and
clean info of a regex entry stay empty. -/
def evaluateAll (parseOnly : Bool) (evalCondition : String → Bool)
    (getCrcFn : String → Nat) (isRegexName : String → Bool)
    (pluginMetadata : PluginMetadata) : PluginMetadata :=
  if parseOnly then pluginMetadata
  else
    { name := pluginMetadata.name
      enabled := pluginMetadata.enabled
      group := pluginMetadata.group
      loadAfterFiles := pluginMetadata.loadAfterFiles.filter fun f => evalCondition f.condition
      requirements := pluginMetadata.requirements.filter fun f => evalCondition f.condition
      incompatibilities :=
        pluginMetadata.incompatibilities.filter fun f => evalCondition f.condition
      messages := pluginMetadata.messages.filter fun m => evalCondition m.condition
      tags := pluginMetadata.tags.filter fun t => evalCondition t.condition
      dirtyInfo :=
        if isRegexName pluginMetadata.name then []
        else pluginMetadata.dirtyInfo.filter fun i =>
          evaluateCleaningData parseOnly getCrcFn i pluginMetadata.name
      cleanInfo :=
        if isRegexName pluginMetadata.name then []
        else pluginMetadata.cleanInfo.filter fun i =>
          evaluateCleaningData parseOnly getCrcFn i pluginMetadata.name
      locations := pluginMetadata.locations }

/-- Embeds `ApiDatabase::GetPluginMetadata` (api_database.cpp lines 208-227).
The metadata type is abstract; `mergeMetadata base user` stands for
`base.MergeMetadata(user)` (user merged into base), `evaluateAllFn` for
`conditionEvaluator_->EvaluateAll`, and the two find functions for
`masterlist_.FindPlugin` and `userlist_.FindPlugin` (metadata_list.cpp is an
external collaborator of this excerpt). -/
def GetPluginMetadata {α : Type} (mergeMetadata : α → α → α) (evaluateAllFn : α → α)
    (masterlistFindPlugin userlistFindPlugin : String → Option α)
    (plugin : String) (includeUserMetadata evaluateConditions : Bool) : Option α :=
  let metadata := masterlistFindPlugin plugin
  let metadata :=
    if includeUserMetadata then
      match metadata, userlistFindPlugin plugin with
      | some m, some u => some (mergeMetadata m u)
      | none, some u => some u
      | m, none => m
    else metadata
  if evaluateConditions then metadata.map evaluateAllFn else metadata

/-- Spec-side restatement of the database merge, following the wording of the
specification: compute `base` from the masterlist, merge or substitute user
metadata when `includeUser`, then apply `EvaluateAll` when `evaluate`. -/
def specGetPluginMetadata {α : Type} (mergeMetadata : α → α → α) (evaluateAllFn : α → α)
    (masterlistFindPlugin userlistFindPlugin : String → Option α)
    (plugin : String) (includeUserMetadata evaluateConditions : Bool) : Option α :=
  let base : Option α :=
    if includeUserMetadata then
      match masterlistFindPlugin plugin, userlistFindPlugin plugin with
      | some b, some u => some (mergeMetadata b u)
      | some b, none => some b
      | none, some u => some u
      | none, none => none
    else masterlistFindPlugin plugin
  if evaluateConditions then Option.map evaluateAllFn base else base

/-- Error raised by `ApiDatabase::LoadLists`: either the `FileAccessError`
thrown on a missing path, or an error propagated from document loading. -/
inductive LoadListsError (E : Type)
  | fileAccess (message : String)
  | loadFailure (error : E)
deriving DecidableEq

/-- The two metadata documents owned by the database
(`masterlist_` and `userlist_` members of `ApiDatabase`). -/
structure DatabaseLists (M U : Type) where
  masterlist : M
  userlist : U
deriving DecidableEq

/-- Embeds one of the two identical load blocks of `ApiDatabase::LoadLists`
(api_database.cpp lines 51-58 and 60-67): an empty path keeps the
default-constructed document, a missing path throws `FileAccessError`, and
otherwise the external serialiser's `Load` runs. -/
def loadListFile {A E : Type} (fsPathExists : String → Bool)
    (loadFile : String → Except E A) (defaultList : A)
    (path kindDescription : String) : Except (LoadListsError E) A :=
  if path ≠ "" then
    if fsPathExists path then
      Except.mapError LoadListsError.loadFailure (loadFile path)
    else
      .error (.fileAccess ("The given " ++ kindDescription ++
        " path does not exist: " ++ path))
  else .ok defaultList

/-- Embeds `ApiDatabase::LoadLists` (api_database.cpp lines 46-71).  Both
documents are loaded into the temporaries `temp` and `userTemp`; the member
fields are assigned only on the final line, after both loads succeeded.  An
exception leaves the database state `db` untouched. -/
def LoadLists {M U E : Type} (fsPathExists : String → Bool)
    (loadMasterlist : String → Except E M) (loadUserlist : String → Except E U)
    (defaultMasterlist : M) (defaultUserlist : U)
    (db : DatabaseLists M U) (masterlistPath userlistPath : String) :
    Except (LoadListsError E) Unit × DatabaseLists M U :=
  match loadListFile fsPathExists loadMasterlist defaultMasterlist masterlistPath "masterlist" with
  | .error e => (.error e, db)
  | .ok temp =>
    match loadListFile fsPathExists loadUserlist defaultUserlist userlistPath "userlist" with
    | .error e => (.error e, db)
    | .ok userTemp => (.ok (), { masterlist := temp, userlist := userTemp })

/-- Per-plugin sorting snapshot (`loot::PluginSortingData`), restricted to the
fields `ComparePlugins` reads: the filename (as its character list) and the
optional current load-order index. -/
structure PluginSortingData where
  name : List Char
  loadOrderIndex : Option Nat
deriving DecidableEq

/-- Lexicographic three-way comparison of character lists, the comparison
underlying the modelled `CompareFilenames`. -/
def compareCharLists : List Char → List Char → Ordering
  | [], [] => .eq
  | [], _ :: _ => .lt
  | _ :: _, [] => .gt
  | a :: as, b :: bs =>
    if a < b then .lt
    else if b < a then .gt
    else compareCharLists as bs

/-- Modelled from the spec: `loot::CompareFilenames` (api/helpers/text.h, not
part of the excerpt) compares two filenames case-insensitively and returns a
negative, zero or positive integer in the manner of `strcmp`. -/
def CompareFilenames (lhs rhs : List Char) : Int :=
  match compareCharLists (lowercase lhs) (lowercase rhs) with
  | .lt => -1
  | .eq => 0
  | .gt => 1

/-- Embeds `ComparePlugins` (plugin_sorter.cpp lines 688-728): plugins with a
load-order index first, then by index, then case-insensitively by basename
(name minus the last four characters), then by the four-character
extension. -/
def ComparePlugins (plugin1 plugin2 : PluginSortingData) : Int :=
  match plugin1.loadOrderIndex, plugin2.loadOrderIndex with
  | some _, none => -1
  | none, some _ => 1
  | some index1, some index2 => if index1 < index2 then -1 else 1
  | none, none =>
    let name1 := plugin1.name
    let name2 := plugin2.name
    let basename1 := name1.take (name1.length - 4)
    let basename2 := name2.take (name2.length - 4)
    let result := CompareFilenames basename1 basename2
    if result ≠ 0 then result
    else CompareFilenames (name1.drop (name1.length - 4)) (name2.drop (name2.length - 4))

/-- A plugin filename is well formed when it carries a four-character
extension, so that the basename and extension substrings of `ComparePlugins`
are meaningful (`name.substr` would throw on shorter names). -/
def WellFormedPlugin (p : PluginSortingData) : Prop := 4 ≤ p.name.length

/-- Two sorting snapshots are distinct plugins: their case-folded filenames
differ (plugins are identified by case-folded filename) and, when both carry
a current load-order index, the indices differ (an index is a position in the
load order, held by at most one plugin). -/
def DistinctPlugins (p q : PluginSortingData) : Prop :=
  lowercase p.name ≠ lowercase q.name ∧
  ∀ i, p.loadOrderIndex = some i → q.loadOrderIndex ≠ some i

/-- Game identifiers (`loot::GameType`), restricted to the variants the
excerpt mentions. -/
inductive GameType
  | tes4
  | tes5
  | fo3
  | fonv
deriving DecidableEq

/-- State threaded through `AddHardcodedPluginEdges`: added hardcoded edges
and the paths cache, both at the level of vertex names, plus the
`processedPluginPaths` set (as a list of canonical paths). -/
structure HardcodedEdgesState where
  edges : List (String × String)
  pathsCache : List (String × String)
  processedPluginPaths : List String
deriving DecidableEq

/-- Embeds `PluginSorter::AddEdge` (plugin_sorter.cpp lines 324-342) at the
level of vertex names: the edge is added, and the paths cache extended, only
when the (from, to) pair is not already cached. -/
def addNamedEdge (st : HardcodedEdgesState) (fromName toName : String) :
    HardcodedEdgesState :=
  if (fromName, toName) ∈ st.pathsCache then st
  else
    { st with
      edges := st.edges ++ [(fromName, toName)]
      pathsCache := st.pathsCache ++ [(fromName, toName)] }

/-- Embeds `PluginSorter::GetVertexByName` (plugin_sorter.cpp lines 246-256):
the first vertex whose stored name compares case-insensitively equal to the
given name (`CompareFilenames == 0`). -/
def GetVertexByName (vertices : List String) (name : String) : Option String :=
  vertices.find? fun v => strLower v == strLower name

/-- Embeds `PluginSorter::AddHardcodedPluginEdges` (plugin_sorter.cpp lines
344-408).  The filesystem is a parameter: `fsExists` stands for
`std::filesystem::exists` and `canonicalPath` for
`std::filesystem::canonical`, returning `none` where the C++ call throws
`filesystem_error`; path joining `game.DataPath() / name` is string
concatenation with "/".  Vertices are their plugin names, in graph order.
Note the Skyrim `update.esm` branch (lines 367-375): the `continue` that
skips the plugin sits inside the `if (logger_)` block, so the skip only
happens when a logger is configured (`loggerPresent`). -/
def AddHardcodedPluginEdges (gameType : GameType) (loggerPresent : Bool)
    (dataPath : String) (fsExists : String → Bool)
    (canonicalPath : String → Option String) (vertices : List String)
    (implicitlyActivePlugins : List String) (st0 : HardcodedEdgesState) :
    Except String HardcodedEdgesState :=
  implicitlyActivePlugins.foldlM
    (fun st plugin =>
      let pluginPath := dataPath ++ "/" ++ plugin
      match canonicalPath pluginPath with
      | none => .ok st
      | some canonicalPluginPath =>
        let st :=
          { st with
            processedPluginPaths := st.processedPluginPaths ++ [canonicalPluginPath] }
        if gameType = GameType.tes5 ∧ strLower plugin = "update.esm" ∧ loggerPresent then
          .ok st
        else
          match GetVertexByName vertices plugin with
          | none => .ok st
          | some pluginVertex =>
            vertices.foldlM
              (fun st2 graphPlugin =>
                let graphPluginPath0 := dataPath ++ "/" ++ graphPlugin
                let graphPluginPath :=
                  if fsExists graphPluginPath0 then graphPluginPath0
                  else graphPluginPath0 ++ ".ghost"
                if ¬ fsExists graphPluginPath then .ok st2
                else
                  match canonicalPath graphPluginPath with
                  | none => .error "filesystem error in canonical"
                  | some canonicalGraphPath =>
                    if canonicalGraphPath ∈ st2.processedPluginPaths then .ok st2
                    else .ok (addNamedEdge st2 pluginVertex graphPlugin))
              st)
    st0

/-- Edge tags of the plugin graph (`loot::EdgeType` as used by the sorter). -/
inductive EdgeType
  | hardcoded
  | masterFlag
  | master
  | masterlistRequirement
  | userRequirement
  | masterlistLoadAfter
  | userLoadAfter
  | group
  | overlap
  | tieBreak
deriving DecidableEq

/-- A directed, tagged edge of the plugin graph; vertices are indices. -/
structure GraphEdge where
  src : Nat
  dst : Nat
  label : EdgeType
deriving DecidableEq

/-- The plugin graph: a list of tagged directed edges (vertices need no
separate record for reachability reasoning). -/
structure PluginGraph where
  edges : List GraphEdge
deriving DecidableEq

/-- Out-neighbours of a vertex, as iterated by `boost::adjacent_vertices`. -/
def adjacentVertices (g : PluginGraph) (v : Nat) : List Nat :=
  (g.edges.filter fun e => e.src == v).map fun e => e.dst

/-- In-neighbours of a vertex, as iterated by `boost::inv_adjacent_vertices`. -/
def invAdjacentVertices (g : PluginGraph) (v : Nat) : List Nat :=
  (g.edges.filter fun e => e.dst == v).map fun e => e.src

/-- State of the bidirectional breadth-first search inside
`PluginSorter::EdgeCreatesCycle`: the two queues, the two visited sets, and
the paths cache being appended to. -/
structure BfsState where
  forwardQueue : List Nat
  reverseQueue : List Nat
  forwardVisited : List Nat
  reverseVisited : List Nat
  pathsCache : List (Nat × Nat)

/-- The body of the forward-expansion loop of `EdgeCreatesCycle`
(plugin_sorter.cpp lines 293-301): an unvisited successor `w` is cached as
reachable from `start`, marked visited and enqueued. -/
def forwardStep (start : Nat) (acc : BfsState) (w : Nat) : BfsState :=
  if w ∈ acc.forwardVisited then acc
  else
    { acc with
      pathsCache := acc.pathsCache ++ [(start, w)]
      forwardVisited := acc.forwardVisited ++ [w]
      forwardQueue := acc.forwardQueue ++ [w] }

/-- The body of the reverse-expansion loop of `EdgeCreatesCycle`
(plugin_sorter.cpp lines 309-317): an unvisited predecessor `w` is cached as
reaching `finish`, marked visited and enqueued. -/
def reverseStep (finish : Nat) (acc : BfsState) (w : Nat) : BfsState :=
  if w ∈ acc.reverseVisited then acc
  else
    { acc with
      pathsCache := acc.pathsCache ++ [(w, finish)]
      reverseVisited := acc.reverseVisited ++ [w]
      reverseQueue := acc.reverseQueue ++ [w] }

/-- Embeds the forward-expansion loop of `EdgeCreatesCycle`
(plugin_sorter.cpp lines 293-301), folding `forwardStep` over the
out-neighbours of the popped vertex `v`. -/
def expandForward (g : PluginGraph) (start v : Nat) (st : BfsState) : BfsState :=
  (adjacentVertices g v).foldl (forwardStep start) st

/-- Embeds the reverse-expansion loop of `EdgeCreatesCycle`
(plugin_sorter.cpp lines 309-317), folding `reverseStep` over the
in-neighbours of the popped vertex `v`. -/
def expandReverse (g : PluginGraph) (finish v : Nat) (st : BfsState) : BfsState :=
  (invAdjacentVertices g v).foldl (reverseStep finish) st

/-- Embeds the while loop of `EdgeCreatesCycle` (plugin_sorter.cpp lines
286-319).  Each iteration pops and processes one vertex from each queue; the
C++ loop terminates because visited sets grow, which the embedding expresses
with an explicit fuel parameter.  Returns the boolean result together with
the final paths cache. -/
def bidirectionalSearch (g : PluginGraph) (start finish : Nat) :
    Nat → BfsState → Bool × List (Nat × Nat)
  | 0, st => (false, st.pathsCache)
  | fuel + 1, st =>
    match st.forwardQueue, st.reverseQueue with
    | [], _ => (false, st.pathsCache)
    | _ :: _, [] => (false, st.pathsCache)
    | v :: forwardRest, u :: reverseRest =>
      if v = finish ∨ v ∈ st.reverseVisited then (true, st.pathsCache)
      else
        let st1 := expandForward g start v { st with forwardQueue := forwardRest }
        if u = start ∨ u ∈ st1.forwardVisited then (true, st1.pathsCache)
        else
          let st2 := expandReverse g finish u { st1 with reverseQueue := reverseRest }
          bidirectionalSearch g start finish fuel st2

/-- Embeds `PluginSorter::EdgeCreatesCycle` (plugin_sorter.cpp lines 267-322):
a cache hit on (to, from) answers true immediately; otherwise the
bidirectional search runs from `toVertex` towards `fromVertex`, updating the
paths cache with the reachability it discovers. -/
def EdgeCreatesCycle (g : PluginGraph) (cache : List (Nat × Nat))
    (fromVertex toVertex fuel : Nat) : Bool × List (Nat × Nat) :=
  if (toVertex, fromVertex) ∈ cache then (true, cache)
  else
    bidirectionalSearch g toVertex fromVertex fuel
      { forwardQueue := [toVertex]
        reverseQueue := [fromVertex]
        forwardVisited := [toVertex]
        reverseVisited := [fromVertex]
        pathsCache := cache }

/-- Embeds `PluginSorter::AddEdge` (plugin_sorter.cpp lines 324-342): when the
(from, to) pair is not cached, the edge is appended to the graph and the pair
to the paths cache. -/
def AddEdge (g : PluginGraph) (cache : List (Nat × Nat))
    (fromVertex toVertex : Nat) (label : EdgeType) :
    PluginGraph × List (Nat × Nat) :=
  if (fromVertex, toVertex) ∈ cache then (g, cache)
  else
    ({ edges := g.edges ++ [⟨fromVertex, toVertex, label⟩] },
      cache ++ [(fromVertex, toVertex)])

/-- One-step edge relation of the plugin graph. -/
def EdgeRel (g : PluginGraph) (x y : Nat) : Prop :=
  ∃ e ∈ g.edges, e.src = x ∧ e.dst = y

/-- Reachability: a directed path (possibly empty) from `x` to `y`. -/
def Reaches (g : PluginGraph) (x y : Nat) : Prop :=
  Relation.ReflTransGen (EdgeRel g) x y

/-- Soundness of the paths cache: every recorded pair is connected by a
directed path in the graph. -/
def CacheSound (g : PluginGraph) (cache : List (Nat × Nat)) : Prop :=
  ∀ p ∈ cache, Reaches g p.1 p.2

/-- Invariant of the bidirectional search: forward-visited vertices are
reachable from `start`, reverse-visited vertices reach `finish`, the queues
contain only visited vertices, and the paths cache is sound. -/
def BfsInvariant (g : PluginGraph) (start finish : Nat) (st : BfsState) : Prop :=
  (∀ v ∈ st.forwardVisited, Reaches g start v) ∧
  (∀ v ∈ st.reverseVisited, Reaches g v finish) ∧
  (∀ v ∈ st.forwardQueue, v ∈ st.forwardVisited) ∧
  (∀ v ∈ st.reverseQueue, v ∈ st.reverseVisited) ∧
  CacheSound g st.pathsCache

/-- Edge-type annotation used by the group resolver's cycle report
(`EdgeType::LoadAfter` in the group sort tests). -/
inductive GroupEdgeType
  | loadAfter
deriving DecidableEq

/-- A vertex of a reported cycle (`loot::Vertex`): a group name and the type
of the edge to the next vertex in the cycle. -/
structure CycleVertex where
  name : String
  typeOfEdgeToNextVertex : GroupEdgeType
deriving DecidableEq

/-- Errors of the group resolver: `UndefinedGroupError` carrying the missing
group name, or `CyclicInteractionError` carrying the ordered cycle. -/
inductive GroupSortError
  | undefinedGroup (name : String)
  | cyclicInteraction (cycle : List CycleVertex)
deriving DecidableEq

/-- A metadata group (`loot::Group`): a name and the names of the groups it
loads after. -/
structure Group where
  name : String
  afterGroups : List String
deriving DecidableEq

/-- Looks up a group by name in the group set. -/
def findGroup (groups : List Group) (groupName : String) : Option Group :=
  groups.find? fun g => g.name == groupName

/-- Fuel bound for the depth-first traversal of the group graph; generous
enough that the traversal of any input that does not cycle first runs to
completion on the concrete inputs considered here. -/
def groupFuel (groups : List Group) : Nat :=
  (groups.foldl (fun acc g => acc + g.afterGroups.length + 1) 1) * (groups.length + 1)

/-- Modelled from the spec: the recursive step of `GetTransitiveAfterGroups`
(group_sort.cpp is not part of the excerpt; only its tests are).  Per the
specification, the resolver is a depth-first traversal with a visited stack;
a repeated visit of a stack member is a group cycle, reported as the ordered
sequence of group names on the cycle with `LoadAfter` as the edge type of
every step, and a referenced but undefined group raises
`UndefinedGroupError`.  `stack` holds the current path, most recent first;
the result is the transitive after-group closure of the processed list. -/
def visitAfterGroups (groups : List Group) :
    Nat → List String → List String → Except GroupSortError (List String)
  | _, _, [] => .ok []
  | 0, _, _ => .error (.cyclicInteraction [])
  | fuel + 1, stack, afterName :: rest =>
    if afterName ∈ stack then
      .error (.cyclicInteraction
        (((stack.takeWhile fun n => decide (n ≠ afterName)) ++ [afterName]).reverse.map
          fun n => ⟨n, GroupEdgeType.loadAfter⟩))
    else
      match findGroup groups afterName with
      | none => .error (.undefinedGroup afterName)
      | some afterGroup =>
        match visitAfterGroups groups fuel (afterName :: stack) afterGroup.afterGroups with
        | .error e => .error e
        | .ok transitive =>
          match visitAfterGroups groups fuel stack rest with
          | .error e => .error e
          | .ok restClosure => .ok (List.union (afterName :: transitive) restClosure)

/-- Modelled from the spec: `GetTransitiveAfterGroups` maps every group to the
transitive closure of its after-groups, raising `CyclicInteractionError` on a
group cycle and `UndefinedGroupError` on a dangling reference. -/
def GetTransitiveAfterGroups (groups : List Group) :
    Except GroupSortError (List (String × List String)) :=
  groups.foldlM
    (fun acc g =>
      match visitAfterGroups groups (groupFuel groups) [g.name] g.afterGroups with
      | .error e => .error e
      | .ok closure => .ok (acc ++ [(g.name, closure)]))
    []

/-!
Theorems.  Helper lemmas come first, then one theorem per claim(with a
witness or counterexample where required).
-/

/-- Congruence of `ConsecutiveFrom` in its propositional argument. -/
theorem consecutiveFrom_congr (p q : Prop) (hpq : p ↔ q) (l : List String) :
    ConsecutiveFrom p l ↔ ConsecutiveFrom q l := by
  cases l with
  | nil => exact Iff.rfl
  | cons c rest => simp only [ConsecutiveFrom]; rw [hpq]

/-- Unfolding lemma: `ConsecutiveParentRefs` on a cons is `ConsecutiveFrom`
seeded with whether the head is "..". -/
theorem consecutiveParentRefs_cons (a : String) (l : List String) :
    ConsecutiveParentRefs (a :: l) ↔ ConsecutiveFrom (a = "..") l := by
  induction l generalizing a with
  | nil => simp [ConsecutiveParentRefs, ConsecutiveFrom]
  | cons b rest ih =>
    simp only [ConsecutiveParentRefs, ConsecutiveFrom]
    rw [ih b]

/-- The accumulator-tracking characterisation of `validatePathAux`: it errors
exactly when the non-"." components, viewed after the last component already
accumulated in `temp`, contain ".." immediately after "..". -/
theorem validatePathAux_error_iff (cs : List String) : ∀ temp : List String,
    (∃ e, validatePathAux temp cs = Except.error e) ↔
      ConsecutiveFrom (temp.getLast? = some "..") (cs.filter fun c => decide (c ≠ ".")) := by
  induction cs with
  | nil => intro temp; simp [validatePathAux, ConsecutiveFrom]
  | cons c rest ih =>
    intro temp
    by_cases hc : c = "."
    · subst hc
      rw [show (("." :: rest).filter fun c => decide (c ≠ ".")) =
            rest.filter fun c => decide (c ≠ ".") by simp]
      simpa only [validatePathAux, if_pos rfl] using ih temp
    · rw [show ((c :: rest).filter fun c => decide (c ≠ ".")) =
            c :: rest.filter fun c => decide (c ≠ ".") by simp [hc]]
      by_cases hcc : c = ".." ∧ temp.getLast? = some ".."
      · simp only [validatePathAux, ConsecutiveFrom]
        rw [if_neg hc, if_pos hcc]
        constructor
        · intro _; exact Or.inl ⟨hcc.2, hcc.1⟩
        · intro _; exact ⟨⟨"Invalid file path"⟩, rfl⟩
      · have hstep : validatePathAux temp (c :: rest) = validatePathAux (temp ++ [c]) rest := by
          simp only [validatePathAux]
          rw [if_neg hc, if_neg hcc]
        rw [hstep]
        have hrec := ih (temp ++ [c])
        rw [List.getLast?_concat] at hrec
        rw [hrec]
        simp only [ConsecutiveFrom]
        rw [consecutiveFrom_congr (some c = some "..") (c = "..") (by simp)]
        have h2 : ¬(temp.getLast? = some ".." ∧ c = "..") := fun h => hcc ⟨h.2, h.1⟩
        tauto

/-- C5: `validatePath` throws `ConditionSyntaxError` if and only if, after
dropping "." components, the path contains a ".." component immediately
following another ".." component; every other component list is accepted. -/
theorem C5_validatePath_error_iff_consecutive_parent_refs (comps : List String) :
    (∃ e, validatePath comps = Except.error e) ↔
      ConsecutiveParentRefs (comps.filter fun c => decide (c ≠ ".")) := by
  rw [show validatePath comps = validatePathAux [] comps from rfl]
  rw [validatePathAux_error_iff]
  rw [consecutiveFrom_congr (([] : List String).getLast? = some "..") False (by simp)]
  cases comps.filter fun c => decide (c ≠ ".") with
  | nil => simp [ConsecutiveFrom, ConsecutiveParentRefs]
  | cons a l =>
    rw [consecutiveParentRefs_cons]
    simp [ConsecutiveFrom]

/-- C4: when the file does not exist, `compareVersions` returns true exactly
for the comparators "!=", "<" and "<=" and false for "==", ">" and ">=",
whatever the version comparison oracle says (the version is never
extracted). -/
theorem C4_compareVersions_missing_file
    (fileExistsFn : String → Except ConditionSyntaxError Bool)
    (versionCompare : String → String → Ordering)
    (filePath testVersion comparator : String)
    (h : fileExistsFn filePath = Except.ok false) :
    compareVersions fileExistsFn versionCompare filePath testVersion comparator =
      Except.ok (comparator == "!=" || comparator == "<" || comparator == "<=") := by
  unfold compareVersions
  rw [h]
  rfl

/-- Witness for C4 at the spec's own example: a missing file with comparator
"<" yields true. -/
theorem C4_compareVersions_missing_file_witness :
    ((fun (_ : String) => (Except.ok false : Except ConditionSyntaxError Bool))
        "nonexistent.esp" = Except.ok false) ∧
    compareVersions (fun _ => Except.ok false) (fun _ _ => Ordering.eq)
        "nonexistent.esp" "1.0" "<" =
      Except.ok ("<" == "!=" || "<" == "<" || "<" == "<=") :=
  ⟨rfl, C4_compareVersions_missing_file (fun _ => Except.ok false)
    (fun _ _ => Ordering.eq) "nonexistent.esp" "1.0" "<" rfl⟩

/-- C2 counterexample: in parse-only mode `evaluate` returns false for the
empty condition, not true as the claim states. -/
theorem C2_counterexample_empty_condition_false :
    evaluate true (fun _ => Except.error ⟨"unused"⟩) (fun _ => none) "" =
      Except.ok false ∧
    (Except.ok false : Except ConditionSyntaxError Bool) ≠ Except.ok true :=
  ⟨rfl, by simp⟩

/-- C2 amended: in parse-only mode `evaluate` still validates the condition's
syntax — a `ConditionSyntaxError` from parsing propagates — and returns
false for every syntactically valid condition, the empty string included. -/
theorem C2_parse_only_validates_and_returns_false
    (parse : String → Except ConditionSyntaxError Bool)
    (cachedCondition : String → Option Bool) (condition : String) :
    evaluate true parse cachedCondition condition =
      (parseCondition parse condition).map fun _ => false := by
  unfold evaluate
  cases h : parseCondition parse condition <;> simp [h, Except.map]

/-- C3: `GetPluginMetadata` returns the masterlist `FindPlugin` result when
`includeUser` is false; with `includeUser` it merges user metadata into the
masterlist metadata, or takes the user metadata alone when only the userlist
matches, and is absent when neither matches; `EvaluateAll` is applied to an
existing result exactly when `evaluate` is set. -/
theorem C3_GetPluginMetadata_matches_spec {α : Type}
    (mergeMetadata : α → α → α) (evaluateAllFn : α → α)
    (masterlistFindPlugin userlistFindPlugin : String → Option α)
    (plugin : String) (includeUserMetadata evaluateConditions : Bool) :
    GetPluginMetadata mergeMetadata evaluateAllFn masterlistFindPlugin userlistFindPlugin
        plugin includeUserMetadata evaluateConditions =
      specGetPluginMetadata mergeMetadata evaluateAllFn masterlistFindPlugin userlistFindPlugin
        plugin includeUserMetadata evaluateConditions := by
  simp only [GetPluginMetadata, specGetPluginMetadata]
  cases hm : masterlistFindPlugin plugin <;>
    cases hu : userlistFindPlugin plugin <;>
      cases includeUserMetadata <;>
        cases evaluateConditions <;>
          simp [hm, hu]

/-- C6 counterexample: a regex entry's dirty info is dropped by `evaluateAll`,
not passed through unfiltered — even when the record's CRC equals the
plugin's computed CRC. -/
theorem C6_counterexample_regex_dirty_info_dropped :
    (evaluateAll false (fun _ => true) (fun _ => 123) (fun _ => true)
        ⟨"Foo.*\\.esp", true, none, [], [], [], [], [],
          [⟨123, 1, 0, 0, "TES5Edit", "detail"⟩], [], []⟩).dirtyInfo = [] ∧
    (⟨"Foo.*\\.esp", true, none, [], [], [], [], [],
        [⟨123, 1, 0, 0, "TES5Edit", "detail"⟩], [], []⟩ :
      PluginMetadata).dirtyInfo ≠ [] :=
  ⟨rfl, by simp⟩

/-- C6 amended: outside parse-only mode, `evaluateAll` CRC-filters dirty and
clean info only for non-regex entries — a record is kept exactly when the
plugin name is non-empty and the record's CRC equals the plugin's computed
CRC — while for regex entries the evaluated copy's dirty and clean info are
empty. -/
theorem C6_dirty_clean_info_filtering (evalCondition : String → Bool)
    (getCrcFn : String → Nat) (isRegexName : String → Bool)
    (m : PluginMetadata) (i : PluginCleaningData) :
    (i ∈ (evaluateAll false evalCondition getCrcFn isRegexName m).dirtyInfo ↔
      isRegexName m.name = false ∧ i ∈ m.dirtyInfo ∧ m.name ≠ "" ∧ i.crc = getCrcFn m.name) ∧
    (i ∈ (evaluateAll false evalCondition getCrcFn isRegexName m).cleanInfo ↔
      isRegexName m.name = false ∧ i ∈ m.cleanInfo ∧ m.name ≠ "" ∧ i.crc = getCrcFn m.name) := by
  simp only [evaluateAll, evaluateCleaningData, if_neg Bool.false_ne_true]
  cases hr : isRegexName m.name <;>
    by_cases hn : m.name = "" <;>
      simp [hr, hn, List.mem_filter]

/-- C9: `LoadLists` is atomic on failure: any error leaves the database's
masterlist and userlist unchanged; a non-empty path that does not exist
raises `FileAccessError`; and the member fields are committed, to the two
loaded documents, only when both loads succeed. -/
theorem C9_LoadLists_atomic_on_failure :
    (∀ (M U E : Type) (fsPathExists : String → Bool)
        (loadMasterlist : String → Except E M) (loadUserlist : String → Except E U)
        (defaultMasterlist : M) (defaultUserlist : U) (db : DatabaseLists M U)
        (masterlistPath userlistPath : String) (e : LoadListsError E),
      (LoadLists fsPathExists loadMasterlist loadUserlist defaultMasterlist defaultUserlist
          db masterlistPath userlistPath).1 = Except.error e →
      (LoadLists fsPathExists loadMasterlist loadUserlist defaultMasterlist defaultUserlist
          db masterlistPath userlistPath).2 = db) ∧
    (∀ (M U E : Type) (fsPathExists : String → Bool)
        (loadMasterlist : String → Except E M) (loadUserlist : String → Except E U)
        (defaultMasterlist : M) (defaultUserlist : U) (db : DatabaseLists M U)
        (masterlistPath userlistPath : String),
      masterlistPath ≠ "" → fsPathExists masterlistPath = false →
      LoadLists fsPathExists loadMasterlist loadUserlist defaultMasterlist defaultUserlist
          db masterlistPath userlistPath =
        (Except.error (LoadListsError.fileAccess
          ("The given " ++ "masterlist" ++ " path does not exist: " ++ masterlistPath)), db)) ∧
    (∀ (M U E : Type) (fsPathExists : String → Bool)
        (loadMasterlist : String → Except E M) (loadUserlist : String → Except E U)
        (defaultMasterlist : M) (defaultUserlist : U) (db : DatabaseLists M U)
        (masterlistPath userlistPath : String) (temp : M),
      userlistPath ≠ "" → fsPathExists userlistPath = false →
      loadListFile fsPathExists loadMasterlist defaultMasterlist masterlistPath "masterlist" =
        Except.ok temp →
      LoadLists fsPathExists loadMasterlist loadUserlist defaultMasterlist defaultUserlist
          db masterlistPath userlistPath =
        (Except.error (LoadListsError.fileAccess
          ("The given " ++ "userlist" ++ " path does not exist: " ++ userlistPath)), db)) ∧
    (∀ (M U E : Type) (fsPathExists : String → Bool)
        (loadMasterlist : String → Except E M) (loadUserlist : String → Except E U)
        (defaultMasterlist : M) (defaultUserlist : U) (db : DatabaseLists M U)
        (masterlistPath userlistPath : String) (temp : M) (userTemp : U),
      loadListFile fsPathExists loadMasterlist defaultMasterlist masterlistPath "masterlist" =
        Except.ok temp →
      loadListFile fsPathExists loadUserlist defaultUserlist userlistPath "userlist" =
        Except.ok userTemp →
      LoadLists fsPathExists loadMasterlist loadUserlist defaultMasterlist defaultUserlist
          db masterlistPath userlistPath = (Except.ok (), ⟨temp, userTemp⟩)) := by
  refine ⟨?_, ?_, ?_, ?_⟩
  · intro M U E fs lm lu dm du db mp up e h
    unfold LoadLists at h ⊢
    cases hm : loadListFile fs lm dm mp "masterlist" with
    | error e1 => simp [hm]
    | ok temp =>
      cases hu : loadListFile fs lu du up "userlist" with
      | error e1 => simp [hm, hu]
      | ok userTemp => rw [hm, hu] at h; simp at h
  · intro M U E fs lm lu dm du db mp up hne hmiss
    have hm : loadListFile fs lm dm mp "masterlist" =
        Except.error (LoadListsError.fileAccess
          ("The given " ++ "masterlist" ++ " path does not exist: " ++ mp)) := by
      simp [loadListFile, hne, hmiss]
    unfold LoadLists
    rw [hm]
  · intro M U E fs lm lu dm du db mp up temp hne hmiss hm
    have hu : loadListFile fs lu du up "userlist" =
        Except.error (LoadListsError.fileAccess
          ("The given " ++ "userlist" ++ " path does not exist: " ++ up)) := by
      simp [loadListFile, hne, hmiss]
    unfold LoadLists
    rw [hm, hu]
  · intro M U E fs lm lu dm du db mp up temp userTemp hm hu
    unfold LoadLists
    rw [hm, hu]

/-- Witness for C9: a missing masterlist path fails and leaves the database
state untouched. -/
theorem C9_LoadLists_witness :
    ((LoadLists (fun _ => false) (fun _ => (Except.ok () : Except Unit Unit))
        (fun _ => (Except.ok () : Except Unit Unit)) () () ⟨(), ()⟩
        "missing.yaml" "").1 =
      Except.error (LoadListsError.fileAccess
        ("The given " ++ "masterlist" ++ " path does not exist: " ++ "missing.yaml"))) ∧
    (LoadLists (fun _ => false) (fun _ => (Except.ok () : Except Unit Unit))
        (fun _ => (Except.ok () : Except Unit Unit)) () () ⟨(), ()⟩
        "missing.yaml" "").2 = ⟨(), ()⟩ :=
  ⟨rfl, C9_LoadLists_atomic_on_failure.1 Unit Unit Unit _ _ _ _ _ _ _ _ _ rfl⟩

/-- C1: evaluation of `AddHardcodedPluginEdges` for Skyrim with `Update.esm`
implicitly active and a second plugin loaded.  Without a logger the code adds
the hardcoded edge Update.esm → Other.esp, because the `continue` skipping
Update.esm sits inside the `if (logger_)` block; with a logger configured it
adds no edge.  This exhibits the divergence from the specified behaviour
(never add hardcoded edges from Update.esm for Skyrim). -/
theorem C1_update_esm_edge_depends_on_logger :
    AddHardcodedPluginEdges GameType.tes5 false "data" (fun _ => true)
        (fun p => some p) ["Update.esm", "Other.esp"] ["Update.esm"] ⟨[], [], []⟩ =
      Except.ok ⟨[("Update.esm", "Other.esp")], [("Update.esm", "Other.esp")],
        ["data/Update.esm"]⟩ ∧
    AddHardcodedPluginEdges GameType.tes5 true "data" (fun _ => true)
        (fun p => some p) ["Update.esm", "Other.esp"] ["Update.esm"] ⟨[], [], []⟩ =
      Except.ok ⟨[], [], ["data/Update.esm"]⟩ :=
  ⟨by decide, by decide⟩

/-- C8: on the three-group cycle a after c, b after a, c after b, the group
resolver throws `CyclicInteractionError` whose payload is the ordered cycle
of the three group names, every step annotated `LoadAfter`. -/
theorem C8_group_cycle_detected :
    GetTransitiveAfterGroups [⟨"a", ["c"]⟩, ⟨"b", ["a"]⟩, ⟨"c", ["b"]⟩] =
      Except.error (GroupSortError.cyclicInteraction
        [⟨"a", GroupEdgeType.loadAfter⟩, ⟨"c", GroupEdgeType.loadAfter⟩,
          ⟨"b", GroupEdgeType.loadAfter⟩]) ∧
    ([⟨"a", GroupEdgeType.loadAfter⟩, ⟨"c", GroupEdgeType.loadAfter⟩,
        ⟨"b", GroupEdgeType.loadAfter⟩] : List CycleVertex).length = 3 ∧
    ∀ v ∈ ([⟨"a", GroupEdgeType.loadAfter⟩, ⟨"c", GroupEdgeType.loadAfter⟩,
        ⟨"b", GroupEdgeType.loadAfter⟩] : List CycleVertex),
      v.typeOfEdgeToNextVertex = GroupEdgeType.loadAfter :=
  ⟨by decide, rfl, by decide⟩

/-- `compareCharLists` answers `eq` exactly on equal lists. -/
theorem compareCharLists_eq_iff : ∀ a b : List Char,
    compareCharLists a b = Ordering.eq ↔ a = b := by
  intro a
  induction a with
  | nil => intro b; cases b <;> simp [compareCharLists]
  | cons x as ih =>
    intro b
    cases b with
    | nil => simp [compareCharLists]
    | cons y bs =>
      simp only [compareCharLists]
      rcases lt_trichotomy x y with h1 | h1 | h1
      · rw [if_pos h1]
        constructor
        · intro h; exact absurd h (by decide)
        · rintro h
          obtain ⟨h2, -⟩ := List.cons.injEq .. ▸ h
          exact absurd h2 (ne_of_lt h1)
      · subst h1
        rw [if_neg (lt_irrefl x), if_neg (lt_irrefl x)]
        rw [ih bs]
        simp
      · rw [if_neg (asymm h1), if_pos h1]
        constructor
        · intro h; exact absurd h (by decide)
        · rintro h
          obtain ⟨h2, -⟩ := List.cons.injEq .. ▸ h
          exact absurd h2 (ne_of_gt h1)

/-- Swapping the arguments of `compareCharLists` turns `lt` into `gt`. -/
theorem compareCharLists_lt_swap : ∀ a b : List Char,
    compareCharLists a b = Ordering.lt ↔ compareCharLists b a = Ordering.gt := by
  intro a
  induction a with
  | nil => intro b; cases b <;> simp [compareCharLists]
  | cons x as ih =>
    intro b
    cases b with
    | nil => simp [compareCharLists]
    | cons y bs =>
      simp only [compareCharLists]
      rcases lt_trichotomy x y with h1 | h1 | h1
      · rw [if_pos h1, if_neg (asymm h1), if_pos h1]
        simp
      · subst h1
        rw [if_neg (lt_irrefl x), if_neg (lt_irrefl x), if_neg (lt_irrefl x),
          if_neg (lt_irrefl x)]
        exact ih bs
      · rw [if_neg (asymm h1), if_pos h1, if_pos h1]
        constructor
        · intro h; exact absurd h (by decide)
        · intro h; exact absurd h (by decide)

/-- Transitivity of the `lt` result of `compareCharLists`. -/
theorem compareCharLists_lt_trans : ∀ a b c : List Char,
    compareCharLists a b = Ordering.lt → compareCharLists b c = Ordering.lt →
      compareCharLists a c = Ordering.lt := by
  intro a
  induction a with
  | nil =>
    intro b c hab hbc
    cases b with
    | nil => exact absurd hab (by simp [compareCharLists])
    | cons y bs =>
      cases c with
      | nil => exact absurd hbc (by simp [compareCharLists])
      | cons z cs => simp [compareCharLists]
  | cons x as ih =>
    intro b c hab hbc
    cases b with
    | nil => exact absurd hab (by simp [compareCharLists])
    | cons y bs =>
      cases c with
      | nil => exact absurd hbc (by simp [compareCharLists])
      | cons z cs =>
        simp only [compareCharLists] at hab hbc ⊢
        rcases lt_trichotomy x y with h1 | h1 | h1
        · rcases lt_trichotomy y z with h2 | h2 | h2
          · rw [if_pos (lt_trans h1 h2)]
          · subst h2; rw [if_pos h1]
          · rw [if_neg (asymm h2), if_pos h2] at hbc
            exact absurd hbc (by decide)
        · subst h1
          rw [if_neg (lt_irrefl x), if_neg (lt_irrefl x)] at hab
          rcases lt_trichotomy x z with h2 | h2 | h2
          · rw [if_pos h2]
          · subst h2
            rw [if_neg (lt_irrefl x), if_neg (lt_irrefl x)] at hbc
            rw [if_neg (lt_irrefl x), if_neg (lt_irrefl x)]
            exact ih bs cs hab hbc
          · rw [if_neg (asymm h2), if_pos h2] at hbc
            exact absurd hbc (by decide)
        · rw [if_neg (asymm h1), if_pos h1] at hab
          exact absurd hab (by decide)

/-- The three possible values of `CompareFilenames`. -/
theorem compareFilenames_cases (a b : List Char) :
    CompareFilenames a b = -1 ∨ CompareFilenames a b = 0 ∨ CompareFilenames a b = 1 := by
  unfold CompareFilenames
  cases compareCharLists (lowercase a) (lowercase b) <;> simp

/-- `CompareFilenames` answers -1 exactly when the lowered lists compare `lt`. -/
theorem compareFilenames_neg_one_iff (a b : List Char) :
    CompareFilenames a b = -1 ↔
      compareCharLists (lowercase a) (lowercase b) = Ordering.lt := by
  unfold CompareFilenames
  cases h : compareCharLists (lowercase a) (lowercase b) <;> simp

/-- `CompareFilenames` answers 0 exactly on case-insensitively equal names. -/
theorem compareFilenames_zero_iff (a b : List Char) :
    CompareFilenames a b = 0 ↔ lowercase a = lowercase b := by
  unfold CompareFilenames
  cases h : compareCharLists (lowercase a) (lowercase b) <;>
    simp [← compareCharLists_eq_iff, h]

/-- Swapping the arguments of `CompareFilenames` negates the result. -/
theorem compareFilenames_swap (a b : List Char) :
    CompareFilenames b a = - CompareFilenames a b := by
  unfold CompareFilenames
  cases h : compareCharLists (lowercase a) (lowercase b) with
  | lt =>
    rw [(compareCharLists_lt_swap _ _).mp h]
    decide
  | eq =>
    rw [(compareCharLists_eq_iff _ _).mpr ((compareCharLists_eq_iff _ _).mp h).symm]
    decide
  | gt =>
    rw [(compareCharLists_lt_swap _ _).mpr h]

/-- Transitivity of the -1 result of `CompareFilenames`. -/
theorem compareFilenames_neg_one_trans (a b c : List Char)
    (hab : CompareFilenames a b = -1) (hbc : CompareFilenames b c = -1) :
    CompareFilenames a c = -1 := by
  rw [compareFilenames_neg_one_iff] at hab hbc ⊢
  exact compareCharLists_lt_trans _ _ _ hab hbc

/-- `CompareFilenames` only depends on the case-folded left name. -/
theorem compareFilenames_congr_left (a a' b : List Char)
    (h : lowercase a = lowercase a') : CompareFilenames a b = CompareFilenames a' b := by
  unfold CompareFilenames
  rw [h]

/-- `CompareFilenames` only depends on the case-folded right name. -/
theorem compareFilenames_congr_right (a b b' : List Char)
    (h : lowercase b = lowercase b') : CompareFilenames a b = CompareFilenames a b' := by
  unfold CompareFilenames
  rw [h]

/-- Case-folding distributes over list append. -/
theorem lowercase_append (a b : List Char) :
    lowercase (a ++ b) = lowercase a ++ lowercase b := by
  simp [lowercase]

/-- A name is case-insensitively determined by its basename and extension. -/
theorem lowercase_eq_of_parts (n1 n2 : List Char) (k1 k2 : Nat)
    (hb : lowercase (n1.take k1) = lowercase (n2.take k2))
    (he : lowercase (n1.drop k1) = lowercase (n2.drop k2)) :
    lowercase n1 = lowercase n2 := by
  rw [← List.take_append_drop k1 n1, ← List.take_append_drop k2 n2,
    lowercase_append, lowercase_append, hb, he]

/-- `ComparePlugins` on an indexed and an unindexed plugin. -/
theorem comparePlugins_some_none (p q : PluginSortingData) (i : Nat)
    (hp : p.loadOrderIndex = some i) (hq : q.loadOrderIndex = none) :
    ComparePlugins p q = -1 := by
  unfold ComparePlugins
  rw [hp, hq]

/-- `ComparePlugins` on an unindexed and an indexed plugin. -/
theorem comparePlugins_none_some (p q : PluginSortingData) (j : Nat)
    (hp : p.loadOrderIndex = none) (hq : q.loadOrderIndex = some j) :
    ComparePlugins p q = 1 := by
  unfold ComparePlugins
  rw [hp, hq]

/-- `ComparePlugins` on two indexed plugins. -/
theorem comparePlugins_some_some (p q : PluginSortingData) (i j : Nat)
    (hp : p.loadOrderIndex = some i) (hq : q.loadOrderIndex = some j) :
    ComparePlugins p q = if i < j then -1 else 1 := by
  unfold ComparePlugins
  rw [hp, hq]

/-- `ComparePlugins` on two unindexed plugins: basename comparison, then
extension comparison. -/
theorem comparePlugins_none_none (p q : PluginSortingData)
    (hp : p.loadOrderIndex = none) (hq : q.loadOrderIndex = none) :
    ComparePlugins p q =
      (if CompareFilenames (p.name.take (p.name.length - 4))
            (q.name.take (q.name.length - 4)) ≠ 0
       then CompareFilenames (p.name.take (p.name.length - 4))
            (q.name.take (q.name.length - 4))
       else CompareFilenames (p.name.drop (p.name.length - 4))
            (q.name.drop (q.name.length - 4))) := by
  unfold ComparePlugins
  rw [hp, hq]

/-- The basename-then-extension result is negative exactly when the basenames
compare -1 or compare equal and the extensions compare -1. -/
theorem lexCompare_neg_iff (a1 a2 b1 b2 : List Char) :
    ((if CompareFilenames a1 a2 ≠ 0 then CompareFilenames a1 a2
      else CompareFilenames b1 b2) < 0) ↔
      (CompareFilenames a1 a2 = -1 ∨
        (lowercase a1 = lowercase a2 ∧ CompareFilenames b1 b2 = -1)) := by
  rcases compareFilenames_cases a1 a2 with ha | ha | ha
  · rw [ha, if_pos (by decide)]
    simp
  · have hl := (compareFilenames_zero_iff a1 a2).mp ha
    rw [ha, if_neg (by decide)]
    rcases compareFilenames_cases b1 b2 with hb | hb | hb <;> rw [hb] <;> simp [hl]
  · have hl : ¬ lowercase a1 = lowercase a2 := by
      intro h
      have h0 := (compareFilenames_zero_iff a1 a2).mpr h
      rw [ha] at h0
      exact absurd h0 (by decide)
    rw [ha, if_pos (by decide)]
    simp [hl]

/-- C7: `ComparePlugins` is a strict total order on well-formed, distinct
plugins: it is asymmetric and total, transitive, orders indexed plugins
before unindexed ones, orders both-indexed plugins by index, orders
both-unindexed plugins case-insensitively by basename and then by the
four-character extension, and in particular orders plug.esm before
plug.esp. -/
theorem C7_ComparePlugins_strict_total_order :
    (∀ p q : PluginSortingData, WellFormedPlugin p → WellFormedPlugin q →
      DistinctPlugins p q → (ComparePlugins p q < 0 ↔ ¬ ComparePlugins q p < 0)) ∧
    (∀ p q r : PluginSortingData, ComparePlugins p q < 0 → ComparePlugins q r < 0 →
      ComparePlugins p r < 0) ∧
    (∀ p q : PluginSortingData, ∀ i, p.loadOrderIndex = some i →
      q.loadOrderIndex = none → ComparePlugins p q = -1 ∧ ComparePlugins q p = 1) ∧
    (∀ p q : PluginSortingData, ∀ i j, p.loadOrderIndex = some i →
      q.loadOrderIndex = some j → i < j → ComparePlugins p q = -1) ∧
    (∀ p q : PluginSortingData, p.loadOrderIndex = none → q.loadOrderIndex = none →
      (ComparePlugins p q < 0 ↔
        (CompareFilenames (p.name.take (p.name.length - 4))
            (q.name.take (q.name.length - 4)) = -1 ∨
          (lowercase (p.name.take (p.name.length - 4)) =
              lowercase (q.name.take (q.name.length - 4)) ∧
            CompareFilenames (p.name.drop (p.name.length - 4))
              (q.name.drop (q.name.length - 4)) = -1)))) ∧
    ComparePlugins ⟨"plug.esm".toList, none⟩ ⟨"plug.esp".toList, none⟩ < 0 ∧
    ComparePlugins ⟨"plug.esp".toList, none⟩ ⟨"plug.esm".toList, none⟩ > 0 := by
  have hlex : ∀ p q : PluginSortingData, p.loadOrderIndex = none →
      q.loadOrderIndex = none →
      (ComparePlugins p q < 0 ↔
        (CompareFilenames (p.name.take (p.name.length - 4))
            (q.name.take (q.name.length - 4)) = -1 ∨
          (lowercase (p.name.take (p.name.length - 4)) =
              lowercase (q.name.take (q.name.length - 4)) ∧
            CompareFilenames (p.name.drop (p.name.length - 4))
              (q.name.drop (q.name.length - 4)) = -1))) := by
    intro p q hp hq
    rw [comparePlugins_none_none p q hp hq]
    exact lexCompare_neg_iff ..
  refine ⟨?_, ?_, ?_, ?_, hlex, ?_, ?_⟩
  · -- asymmetry and totality
    intro p q _ _ hd
    cases hp : p.loadOrderIndex with
    | some i =>
      cases hq : q.loadOrderIndex with
      | none =>
        rw [comparePlugins_some_none p q i hp hq, comparePlugins_none_some q p i hq hp]
        simp
      | some j =>
        have hij : i ≠ j := by
          intro h
          exact hd.2 i hp (by rw [hq, h])
        rw [comparePlugins_some_some p q i j hp hq,
          comparePlugins_some_some q p j i hq hp]
        rcases lt_or_gt_of_ne hij with h | h
        · rw [if_pos h, if_neg (asymm h)]
          simp
        · rw [if_neg (asymm h), if_pos h]
          simp
    | none =>
      cases hq : q.loadOrderIndex with
      | some j =>
        rw [comparePlugins_none_some p q j hp hq, comparePlugins_some_none q p j hq hp]
        simp
      | none =>
        rw [hlex p q hp hq, hlex q p hq hp]
        constructor
        · rintro (h1 | ⟨h1, h1e⟩) <;> rintro (h2 | ⟨h2, h2e⟩)
          · rw [compareFilenames_swap, h1] at h2
            exact absurd h2 (by decide)
          · have h0 := (compareFilenames_zero_iff _ _).mpr h2.symm
            rw [h1] at h0
            exact absurd h0 (by decide)
          · have h0 := (compareFilenames_zero_iff _ _).mpr h1
            rw [compareFilenames_swap, h0] at h2
            exact absurd h2 (by decide)
          · rw [compareFilenames_swap, h1e] at h2e
            exact absurd h2e (by decide)
        · intro hnot
          rcases compareFilenames_cases (p.name.take (p.name.length - 4))
              (q.name.take (q.name.length - 4)) with ha | ha | ha
          · exact Or.inl ha
          · have hlow := (compareFilenames_zero_iff _ _).mp ha
            rcases compareFilenames_cases (p.name.drop (p.name.length - 4))
                (q.name.drop (q.name.length - 4)) with he | he | he
            · exact Or.inr ⟨hlow, he⟩
            · exact absurd (lowercase_eq_of_parts p.name q.name _ _ hlow
                ((compareFilenames_zero_iff _ _).mp he)) hd.1
            · exfalso
              apply hnot
              refine Or.inr ⟨hlow.symm, ?_⟩
              rw [compareFilenames_swap, he]
          · exfalso
            apply hnot
            refine Or.inl ?_
            rw [compareFilenames_swap, ha]
  · -- transitivity
    intro p q r hpq hqr
    cases hp : p.loadOrderIndex with
    | some i =>
      cases hr : r.loadOrderIndex with
      | none =>
        exact comparePlugins_some_none p r i hp hr ▸ (by decide)
      | some k =>
        cases hq : q.loadOrderIndex with
        | none =>
          rw [comparePlugins_none_some q r k hq hr] at hqr
          exact absurd hqr (by decide)
        | some j =>
          rw [comparePlugins_some_some p q i j hp hq] at hpq
          rw [comparePlugins_some_some q r j k hq hr] at hqr
          have hij : i < j := by
            by_contra h
            rw [if_neg h] at hpq
            exact absurd hpq (by decide)
          have hjk : j < k := by
            by_contra h
            rw [if_neg h] at hqr
            exact absurd hqr (by decide)
          rw [comparePlugins_some_some p r i k hp hr, if_pos (lt_trans hij hjk)]
          decide
    | none =>
      cases hq : q.loadOrderIndex with
      | some j =>
        rw [comparePlugins_none_some p q j hp hq] at hpq
        exact absurd hpq (by decide)
      | none =>
        cases hr : r.loadOrderIndex with
        | some k =>
          rw [comparePlugins_none_some q r k hq hr] at hqr
          exact absurd hqr (by decide)
        | none =>
          rw [hlex p q hp hq] at hpq
          rw [hlex q r hq hr] at hqr
          rw [hlex p r hp hr]
          rcases hpq with h1 | ⟨h1, h1e⟩ <;> rcases hqr with h2 | ⟨h2, h2e⟩
          · exact Or.inl (compareFilenames_neg_one_trans _ _ _ h1 h2)
          · refine Or.inl ?_
            rw [compareFilenames_congr_right _ _ _ h2.symm]
            exact h1
          · refine Or.inl ?_
            rw [compareFilenames_congr_left _ _ _ h1]
            exact h2
          · exact Or.inr ⟨h1.trans h2, compareFilenames_neg_one_trans _ _ _ h1e h2e⟩
  · intro p q i hp hq
    exact ⟨comparePlugins_some_none p q i hp hq, comparePlugins_none_some q p i hq hp⟩
  · intro p q i j hp hq hij
    rw [comparePlugins_some_some p q i j hp hq, if_pos hij]
  · decide
  · decide

/-- Witness for C7: the asymmetry-and-totality part applied to the spec's
tie-break example plug.esm and plug.esp (both unindexed and distinct). -/
theorem C7_ComparePlugins_witness :
    WellFormedPlugin ⟨"plug.esm".toList, none⟩ ∧
    DistinctPlugins ⟨"plug.esm".toList, none⟩ ⟨"plug.esp".toList, none⟩ ∧
    (ComparePlugins ⟨"plug.esm".toList, none⟩ ⟨"plug.esp".toList, none⟩ < 0 ↔
      ¬ ComparePlugins ⟨"plug.esp".toList, none⟩ ⟨"plug.esm".toList, none⟩ < 0) :=
  ⟨by unfold WellFormedPlugin; decide, ⟨by decide, fun i h => Option.noConfusion h⟩,
    C7_ComparePlugins_strict_total_order.1 ⟨"plug.esm".toList, none⟩
      ⟨"plug.esp".toList, none⟩ (by unfold WellFormedPlugin; decide)
      (by unfold WellFormedPlugin; decide)
      ⟨by decide, fun i h => Option.noConfusion h⟩⟩

/-- Membership in `adjacentVertices` is exactly an outgoing edge. -/
theorem edgeRel_of_adjacent (g : PluginGraph) (v w : Nat)
    (h : w ∈ adjacentVertices g v) : EdgeRel g v w := by
  unfold adjacentVertices at h
  obtain ⟨e, he, hdst⟩ := List.mem_map.mp h
  obtain ⟨hmem, hsrc⟩ := List.mem_filter.mp he
  exact ⟨e, hmem, by simpa using hsrc, hdst⟩

/-- Membership in `invAdjacentVertices` is exactly an incoming edge. -/
theorem edgeRel_of_invAdjacent (g : PluginGraph) (v w : Nat)
    (h : w ∈ invAdjacentVertices g v) : EdgeRel g w v := by
  unfold invAdjacentVertices at h
  obtain ⟨e, he, hsrc⟩ := List.mem_map.mp h
  obtain ⟨hmem, hdst⟩ := List.mem_filter.mp he
  exact ⟨e, hmem, hsrc, by simpa using hdst⟩

/-- Folding `forwardStep` over out-neighbours of a vertex reachable from
`start` preserves the search invariant. -/
theorem foldl_forwardStep_invariant (g : PluginGraph) (start finish v : Nat) :
    ∀ (l : List Nat) (st : BfsState), (∀ w ∈ l, EdgeRel g v w) → Reaches g start v →
      BfsInvariant g start finish st →
      BfsInvariant g start finish (l.foldl (forwardStep start) st)
  | [], _, _, _, hinv => hinv
  | w :: ws, st, hl, hv, hinv => by
    simp only [List.foldl_cons]
    refine foldl_forwardStep_invariant g start finish v ws _
      (fun x hx => hl x (List.mem_cons_of_mem _ hx)) hv ?_
    unfold forwardStep
    by_cases hw : w ∈ st.forwardVisited
    · rw [if_pos hw]
      exact hinv
    · rw [if_neg hw]
      obtain ⟨h1, h2, h3, h4, h5⟩ := hinv
      have hreach : Reaches g start w :=
        Relation.ReflTransGen.tail hv (hl w (List.mem_cons_self _ _))
      refine ⟨?_, h2, ?_, h4, ?_⟩
      · intro x hx
        rcases List.mem_append.mp hx with hx | hx
        · exact h1 x hx
        · rw [List.mem_singleton.mp hx]
          exact hreach
      · intro x hx
        rcases List.mem_append.mp hx with hx | hx
        · exact List.mem_append_left _ (h3 x hx)
        · exact List.mem_append_right _ hx
      · intro pr hpr
        rcases List.mem_append.mp hpr with hpr | hpr
        · exact h5 pr hpr
        · rw [List.mem_singleton.mp hpr]
          exact hreach

/-- Folding `reverseStep` over in-neighbours of a vertex that reaches
`finish` preserves the search invariant. -/
theorem foldl_reverseStep_invariant (g : PluginGraph) (start finish v : Nat) :
    ∀ (l : List Nat) (st : BfsState), (∀ w ∈ l, EdgeRel g w v) → Reaches g v finish →
      BfsInvariant g start finish st →
      BfsInvariant g start finish (l.foldl (reverseStep finish) st)
  | [], _, _, _, hinv => hinv
  | w :: ws, st, hl, hv, hinv => by
    simp only [List.foldl_cons]
    refine foldl_reverseStep_invariant g start finish v ws _
      (fun x hx => hl x (List.mem_cons_of_mem _ hx)) hv ?_
    unfold reverseStep
    by_cases hw : w ∈ st.reverseVisited
    · rw [if_pos hw]
      exact hinv
    · rw [if_neg hw]
      obtain ⟨h1, h2, h3, h4, h5⟩ := hinv
      have hreach : Reaches g w finish :=
        Relation.ReflTransGen.head (hl w (List.mem_cons_self _ _)) hv
      refine ⟨h1, ?_, h3, ?_, ?_⟩
      · intro x hx
        rcases List.mem_append.mp hx with hx | hx
        · exact h2 x hx
        · rw [List.mem_singleton.mp hx]
          exact hreach
      · intro x hx
        rcases List.mem_append.mp hx with hx | hx
        · exact List.mem_append_left _ (h4 x hx)
        · exact List.mem_append_right _ hx
      · intro pr hpr
        rcases List.mem_append.mp hpr with hpr | hpr
        · exact h5 pr hpr
        · rw [List.mem_singleton.mp hpr]
          exact hreach

/-- `forwardStep` folds do not touch the reverse queue or visited set. -/
theorem foldl_forwardStep_reverse_fields (start : Nat) :
    ∀ (l : List Nat) (st : BfsState),
      (l.foldl (forwardStep start) st).reverseQueue = st.reverseQueue ∧
      (l.foldl (forwardStep start) st).reverseVisited = st.reverseVisited
  | [], _ => ⟨rfl, rfl⟩
  | w :: ws, st => by
    simp only [List.foldl_cons]
    have hrec := foldl_forwardStep_reverse_fields start ws (forwardStep start st w)
    have hstep : (forwardStep start st w).reverseQueue = st.reverseQueue ∧
        (forwardStep start st w).reverseVisited = st.reverseVisited := by
      unfold forwardStep
      by_cases hw : w ∈ st.forwardVisited
      · rw [if_pos hw]
        exact ⟨rfl, rfl⟩
      · rw [if_neg hw]
        exact ⟨rfl, rfl⟩
    exact ⟨hrec.1.trans hstep.1, hrec.2.trans hstep.2⟩

/-- The search invariant is preserved by the forward-expansion step. -/
theorem expandForward_invariant (g : PluginGraph) (start finish v : Nat)
    (st : BfsState) (hinv : BfsInvariant g start finish st)
    (hv : Reaches g start v) :
    BfsInvariant g start finish (expandForward g start v st) :=
  foldl_forwardStep_invariant g start finish v (adjacentVertices g v) st
    (fun w hw => edgeRel_of_adjacent g v w hw) hv hinv

/-- The search invariant is preserved by the reverse-expansion step. -/
theorem expandReverse_invariant (g : PluginGraph) (start finish v : Nat)
    (st : BfsState) (hinv : BfsInvariant g start finish st)
    (hv : Reaches g v finish) :
    BfsInvariant g start finish (expandReverse g finish v st) :=
  foldl_reverseStep_invariant g start finish v (invAdjacentVertices g v) st
    (fun w hw => edgeRel_of_invAdjacent g v w hw) hv hinv

/-- `expandForward` does not touch the reverse queue or visited set. -/
theorem expandForward_preserves_reverse (g : PluginGraph) (start v : Nat)
    (st : BfsState) :
    (expandForward g start v st).reverseQueue = st.reverseQueue ∧
    (expandForward g start v st).reverseVisited = st.reverseVisited :=
  foldl_forwardStep_reverse_fields start (adjacentVertices g v) st

/-- The bidirectional search returns a sound paths cache whenever its state
satisfies the search invariant. -/
theorem bidirectionalSearch_cacheSound (g : PluginGraph) (start finish : Nat) :
    ∀ (fuel : Nat) (st : BfsState), BfsInvariant g start finish st →
      CacheSound g (bidirectionalSearch g start finish fuel st).2 := by
  intro fuel
  induction fuel with
  | zero => exact fun st hinv => hinv.2.2.2.2
  | succ n ih =>
    intro st hinv
    obtain ⟨fq, rq, fvis, rvis, pc⟩ := st
    cases fq with
    | nil =>
      simp only [bidirectionalSearch]
      exact hinv.2.2.2.2
    | cons v fRest =>
      cases rq with
      | nil =>
        simp only [bidirectionalSearch]
        exact hinv.2.2.2.2
      | cons u rRest =>
        simp only [bidirectionalSearch]
        split_ifs with hc1 hc2
        · exact hinv.2.2.2.2
        · have hv : Reaches g start v :=
            hinv.1 v (hinv.2.2.1 v (List.mem_cons_self _ _))
          have hinvA : BfsInvariant g start finish ⟨fRest, u :: rRest, fvis, rvis, pc⟩ :=
            ⟨hinv.1, hinv.2.1, fun x hx => hinv.2.2.1 x (List.mem_cons_of_mem _ hx),
              hinv.2.2.2.1, hinv.2.2.2.2⟩
          exact (expandForward_invariant g start finish v _ hinvA hv).2.2.2.2
        · have hv : Reaches g start v :=
            hinv.1 v (hinv.2.2.1 v (List.mem_cons_self _ _))
          have hinvA : BfsInvariant g start finish ⟨fRest, u :: rRest, fvis, rvis, pc⟩ :=
            ⟨hinv.1, hinv.2.1, fun x hx => hinv.2.2.1 x (List.mem_cons_of_mem _ hx),
              hinv.2.2.2.1, hinv.2.2.2.2⟩
          have hinv1 := expandForward_invariant g start finish v _ hinvA hv
          have hu : Reaches g u finish :=
            hinv.2.1 u (hinv.2.2.2.1 u (List.mem_cons_self _ _))
          have hrev := expandForward_preserves_reverse g start v
            ⟨fRest, u :: rRest, fvis, rvis, pc⟩
          have hinvB : BfsInvariant g start finish
              { expandForward g start v ⟨fRest, u :: rRest, fvis, rvis, pc⟩ with
                reverseQueue := rRest } := by
            obtain ⟨h1, h2, h3, h4, h5⟩ := hinv1
            refine ⟨h1, h2, h3, fun x hx => h4 x ?_, h5⟩
            rw [hrev.1]
            exact List.mem_cons_of_mem _ hx
          exact ih _ (expandReverse_invariant g start finish u _ hinvB hu)

/-- `EdgeCreatesCycle` preserves soundness of the paths cache. -/
theorem edgeCreatesCycle_cacheSound (g : PluginGraph) (cache : List (Nat × Nat))
    (fromVertex toVertex fuel : Nat) (hsound : CacheSound g cache) :
    CacheSound g (EdgeCreatesCycle g cache fromVertex toVertex fuel).2 := by
  unfold EdgeCreatesCycle
  by_cases hmem : (toVertex, fromVertex) ∈ cache
  · rw [if_pos hmem]
    exact hsound
  · rw [if_neg hmem]
    apply bidirectionalSearch_cacheSound
    refine ⟨?_, ?_, fun x hx => hx, fun x hx => hx, hsound⟩
    · intro x hx
      rw [List.mem_singleton.mp hx]
      exact Relation.ReflTransGen.refl
    · intro x hx
      rw [List.mem_singleton.mp hx]
      exact Relation.ReflTransGen.refl

/-- Appending edges preserves reachability (edges are never removed). -/
theorem reaches_append_edges (g : PluginGraph) (es : List GraphEdge) (a b : Nat)
    (h : Reaches g a b) : Reaches ⟨g.edges ++ es⟩ a b := by
  refine Relation.ReflTransGen.mono ?_ h
  intro x y hxy
  obtain ⟨e, he, hs, hd⟩ := hxy
  exact ⟨e, List.mem_append_left _ he, hs, hd⟩

/-- `AddEdge` preserves soundness of the paths cache: the new pair is backed
by the new edge, and old pairs stay connected because no edge is removed. -/
theorem addEdge_cacheSound (g : PluginGraph) (cache : List (Nat × Nat))
    (fromVertex toVertex : Nat) (label : EdgeType) (hsound : CacheSound g cache) :
    CacheSound (AddEdge g cache fromVertex toVertex label).1
      (AddEdge g cache fromVertex toVertex label).2 := by
  unfold AddEdge
  by_cases hmem : (fromVertex, toVertex) ∈ cache
  · rw [if_pos hmem]
    exact hsound
  · rw [if_neg hmem]
    intro pr hpr
    rcases List.mem_append.mp hpr with hpr | hpr
    · exact reaches_append_edges g _ _ _ (hsound pr hpr)
    · rw [List.mem_singleton.mp hpr]
      exact Relation.ReflTransGen.single
        ⟨⟨fromVertex, toVertex, label⟩,
          List.mem_append_right _ (List.mem_singleton_self _), rfl, rfl⟩

/-- C10: the paths cache is sound throughout graph construction.  `AddEdge`
keeps the cache sound; the bidirectional search of `EdgeCreatesCycle` keeps
the cache sound for any fuel; appending edges never invalidates recorded
paths, so the invariant survives every edge-adding phase; and a cache hit
makes `EdgeCreatesCycle` answer true with `toVertex` indeed reaching
`fromVertex`. -/
theorem C10_paths_cache_soundness :
    (∀ (g : PluginGraph) (cache : List (Nat × Nat)) (fromVertex toVertex : Nat)
        (label : EdgeType), CacheSound g cache →
      CacheSound (AddEdge g cache fromVertex toVertex label).1
        (AddEdge g cache fromVertex toVertex label).2) ∧
    (∀ (g : PluginGraph) (cache : List (Nat × Nat)) (fromVertex toVertex fuel : Nat),
      CacheSound g cache →
      CacheSound g (EdgeCreatesCycle g cache fromVertex toVertex fuel).2) ∧
    (∀ (g : PluginGraph) (es : List GraphEdge) (a b : Nat),
      Reaches g a b → Reaches ⟨g.edges ++ es⟩ a b) ∧
    (∀ (g : PluginGraph) (cache : List (Nat × Nat)) (fromVertex toVertex fuel : Nat),
      CacheSound g cache → (toVertex, fromVertex) ∈ cache →
      (EdgeCreatesCycle g cache fromVertex toVertex fuel).1 = true ∧
        Reaches g toVertex fromVertex) := by
  refine ⟨addEdge_cacheSound, edgeCreatesCycle_cacheSound, reaches_append_edges, ?_⟩
  intro g cache fromVertex toVertex fuel hsound hmem
  constructor
  · unfold EdgeCreatesCycle
    rw [if_pos hmem]
  · exact hsound (toVertex, fromVertex) hmem

/-- Witness for C10 on a one-edge graph with its matching one-entry cache:
the cache is sound, a cache hit answers true, and the recorded pair is
indeed connected. -/
theorem C10_paths_cache_soundness_witness :
    CacheSound ⟨[⟨0, 1, EdgeType.master⟩]⟩ [(0, 1)] ∧
    (EdgeCreatesCycle ⟨[⟨0, 1, EdgeType.master⟩]⟩ [(0, 1)] 1 0 5).1 = true ∧
    Reaches ⟨[⟨0, 1, EdgeType.master⟩]⟩ 0 1 := by
  have hsound : CacheSound ⟨[⟨0, 1, EdgeType.master⟩]⟩ [(0, 1)] := by
    intro pr hpr
    rw [List.mem_singleton.mp hpr]
    exact Relation.ReflTransGen.single
      ⟨⟨0, 1, EdgeType.master⟩, List.mem_singleton_self _, rfl, rfl⟩
  have h := C10_paths_cache_soundness.2.2.2 ⟨[⟨0, 1, EdgeType.master⟩]⟩ [(0, 1)]
    1 0 5 hsound (List.mem_singleton_self _)
  exact ⟨hsound, h.1, h.2⟩

end Loot
